import Mathlib

/-!
Verification of the layered configuration resolver (`ConfigManager`,
`src/config.py`) of the binance-trading-bot repository.

Python values that can occur in the configuration tree are modelled by the
inductive type `JVal`: JSON-style data plus the three non-finite floats that
Python's `float()` can produce.  Python floats are modelled as exact decimal
rationals `num / 10 ^ scale` (`num : Int`, `scale : Nat`, kept in the normal
form with minimal `scale`); every float literal appearing in the repository's
defaults (`0.1`, `0.001`, `2.0`, `5.0`) and every comparison the code performs
on floats (sign tests) behave identically under this modelling.  Python
`dict`s are
modelled as association lists in insertion order; Python guarantees the keys
of a real `dict` are pairwise distinct, which theorems take as a `Nodup`
hypothesis where they need it.  Code that can raise is modelled in
`Except PyErr`; code that catches is modelled by matching on the result.
-/

/-- The Python exception classes distinguished by the modelled code paths. -/
inductive PyErr where
  | typeError
  | keyError
  | valueError
  | attributeError
  deriving DecidableEq, Repr

/-- A Python value as it can occur in the configuration tree: `None`, `bool`,
`int`, `float` (a finite float is the exact decimal `num / 10 ^ scale`; the
non-finite floats are `inf`, `-inf`, `nan`), `str`, `list`, `dict`
(association list in insertion order). -/
inductive JVal where
  | none
  | bool (b : Bool)
  | int (n : Int)
  | float (num : Int) (scale : Nat)
  | inf
  | negInf
  | nan
  | str (s : String)
  | list (xs : List JVal)
  | dict (entries : List (String × JVal))
  deriving Repr

/-- A Python dict holding string keys, as used for the configuration tree. -/
abbrev Jdict := List (String × JVal)

/-- `d[k]` read on a Python dict: first (hence, for a real dict, only)
binding of `k`. -/
def dictGet : Jdict → String → Option JVal
  | [], _ => Option.none
  | (k', v) :: rest, k => if k' = k then some v else dictGet rest k

/-- `d[k] = v` on a Python dict: replace the binding in place if the key is
present, otherwise append it (Python dicts preserve insertion order). -/
def dictSet : Jdict → String → JVal → Jdict
  | [], k, v => [(k, v)]
  | (k', v') :: rest, k, v =>
    if k' = k then (k', v) :: rest else (k', v') :: dictSet rest k v

/-- Python truthiness (`bool(v)`) for the modelled values. -/
def pyTruthy : JVal → Bool
  | .none => false
  | .bool b => b
  | .int n => n ≠ 0
  | .float num _ => num ≠ 0
  | .inf => true
  | .negInf => true
  | .nan => true
  | .str s => s ≠ ""
  | .list xs => ¬ xs.isEmpty
  | .dict d => ¬ d.isEmpty

/-- `str.lower()`; the strings handled by the claims are ASCII, and Lean's
`Char.toLower` implements exactly the ASCII case of Python's `lower`. -/
def asciiLower (s : String) : String := String.mk (s.data.map Char.toLower)

/-- `str.upper()` (ASCII, as for `asciiLower`). -/
def asciiUpper (s : String) : String := String.mk (s.data.map Char.toUpper)

/-- The ASCII whitespace characters stripped by Python's numeric parsers. -/
def isPyWS (c : Char) : Bool :=
  c = ' ' ∨ c = '\t' ∨ c = '\n' ∨ c = '\r' ∨ c = '\x0b' ∨ c = '\x0c'

/-- `str.strip()` on the character list (ASCII whitespace). -/
def stripWS (cs : List Char) : List Char :=
  ((cs.dropWhile isPyWS).reverse.dropWhile isPyWS).reverse

/-- Value of an ASCII digit character. -/
def digitVal (c : Char) : Nat := c.toNat - '0'.toNat

/-- Continue parsing a digit string in which a single `'_'` may stand
between two digits (CPython's underscore rule for numeric literals),
accumulating the value. -/
def digitsGo (acc : Nat) : List Char → Option Nat
  | [] => some acc
  | '_' :: c :: rest =>
    if c.isDigit then digitsGo (acc * 10 + digitVal c) rest else Option.none
  | '_' :: [] => Option.none
  | c :: rest =>
    if c.isDigit then digitsGo (acc * 10 + digitVal c) rest else Option.none

/-- Parse a non-empty digit group (underscores allowed between digits),
returning its value; `Option.none` on any malformed input. -/
def parseDigits (cs : List Char) : Option Nat :=
  match cs with
  | [] => Option.none
  | c :: rest => if c.isDigit then digitsGo (digitVal c) rest else Option.none

/-- Like `parseDigits` but also counts the digits (needed for the value of a
fractional part). -/
def parseDigitsCnt (cs : List Char) : Option (Nat × Nat) :=
  match parseDigits cs with
  | some v => some (v, (cs.filter (fun c => c ≠ '_')).length)
  | Option.none => Option.none

/-- Python's `int(s)` on the inputs the resolver can meet: strip ASCII
whitespace, optional sign, non-empty underscore-grouped digit string. -/
def pyIntParse (s : String) : Option Int :=
  match stripWS s.data with
  | '+' :: rest => (parseDigits rest).map (fun n => (n : Int))
  | '-' :: rest => (parseDigits rest).map (fun n => -(n : Int))
  | cs => (parseDigits cs).map (fun n => (n : Int))

/-- Strip trailing decimal zeros: reduce `num / 10 ^ scale` to its minimal
`scale` (the normal form every `JVal.float` in this development carries). -/
def normDec (num : Nat) (scale : Nat) : Nat × Nat :=
  match scale with
  | 0 => (num, 0)
  | s + 1 => if num % 10 = 0 then normDec (num / 10) s else (num, s + 1)

/-- Apply a base-ten exponent `e` to the decimal `num / 10 ^ scale`. -/
def applyExp10 (num : Nat) (scale : Nat) (e : Int) : Nat × Nat :=
  if e ≥ (scale : Int) then (num * 10 ^ (e - scale).toNat, 0)
  else (num, ((scale : Int) - e).toNat)

/-- Split a character list at the first `'e'`/`'E'` (exponent marker). -/
def splitExpMark : List Char → List Char × Option (List Char)
  | [] => ([], Option.none)
  | c :: rest =>
    if c = 'e' ∨ c = 'E' then ([], some rest)
    else
      let (m, e) := splitExpMark rest
      (c :: m, e)

/-- Split a character list at the first `'.'`. -/
def splitDot : List Char → List Char × Option (List Char)
  | [] => ([], Option.none)
  | c :: rest =>
    if c = '.' then ([], some rest)
    else
      let (m, e) := splitDot rest
      (c :: m, e)

/-- Parse the mantissa of a Python float literal: `digits`, `digits.`,
`digits.digits` or `.digits`, with underscore grouping inside each digit
group.  The result is the pair `(num, scale)` denoting `num / 10 ^ scale`. -/
def parseMantissa (cs : List Char) : Option (Nat × Nat) :=
  match splitDot cs with
  | (ip, Option.none) => (parseDigits ip).map (fun n => (n, 0))
  | (ip, some fp) =>
    match ip, fp with
    | [], [] => Option.none
    | [], _ => parseDigitsCnt fp
    | _, [] => (parseDigits ip).map (fun n => (n, 0))
    | _, _ =>
      match parseDigits ip, parseDigitsCnt fp with
      | some n, some p => some (n * 10 ^ p.2 + p.1, p.2)
      | _, _ => Option.none

/-- Parse the exponent part of a float literal (optional sign, digit group). -/
def parseExp (cs : List Char) : Option Int :=
  match cs with
  | '+' :: rest => (parseDigits rest).map (fun n => (n : Int))
  | '-' :: rest => (parseDigits rest).map (fun n => -(n : Int))
  | _ => (parseDigits cs).map (fun n => (n : Int))

/-- Build the normalized `JVal.float` for the decimal `num / 10 ^ scale`. -/
def mkFloat (num : Nat) (scale : Nat) : JVal :=
  let p := normDec num scale
  JVal.float (p.1 : Int) p.2

/-- Unsigned part of `float(s)`: decimal literal with optional exponent, or
the special words `inf`/`infinity`/`nan` (case-insensitive). -/
def pyFloatParseCore (cs : List Char) : Option JVal :=
  let low := cs.map Char.toLower
  if low = "inf".data ∨ low = "infinity".data then some JVal.inf
  else if low = "nan".data then some JVal.nan
  else
    match splitExpMark cs with
    | (m, Option.none) => (parseMantissa m).map (fun p => mkFloat p.1 p.2)
    | (m, some e) =>
      match parseMantissa m, parseExp e with
      | some p, some ex =>
        let q := applyExp10 p.1 p.2 ex
        some (mkFloat q.1 q.2)
      | _, _ => Option.none

/-- Negate the value produced by `pyFloatParseCore` (for a leading `'-'`;
`float("-nan")` is still `nan`). -/
def floatNeg : JVal → JVal
  | .float num scale => .float (-num) scale
  | .inf => .negInf
  | .negInf => .inf
  | v => v

/-- Python's `float(s)`: strip ASCII whitespace, optional sign, then a
decimal literal with optional exponent or `inf`/`infinity`/`nan`. -/
def pyFloatParse (s : String) : Option JVal :=
  match stripWS s.data with
  | '+' :: rest => pyFloatParseCore rest
  | '-' :: rest => (pyFloatParseCore rest).map floatNeg
  | cs => pyFloatParseCore cs

/-- `ConfigManager._convert_env_value` (src/config.py:150-170): boolean words
first, then `int()` when the string has no `'.'`, then `float()`, else the
string unchanged. -/
def convertEnvValue (value : String) : JVal :=
  if asciiLower value = "true" ∨ asciiLower value = "false" then
    .bool (asciiLower value = "true")
  else if ¬ value.data.contains '.' then
    match pyIntParse value with
    | some n => .int n
    | Option.none =>
      match pyFloatParse value with
      | some v => v
      | Option.none => .str value
  else
    match pyFloatParse value with
    | some v => v
    | Option.none => .str value

/-- Python's `path.split('.')` (src/config.py:191,209): split at every `'.'`,
keeping empty pieces; the result is never the empty list. -/
def splitDotAux (acc : List Char) : List Char → List String
  | [] => [String.mk acc.reverse]
  | c :: rest =>
    if c = '.' then String.mk acc.reverse :: splitDotAux [] rest
    else splitDotAux (c :: acc) rest

/-- `path.split('.')` on a Lean string. -/
def pySplitDot (s : String) : List String := splitDotAux [] s.data

/-- Specification-side lookup: descend through nested dicts along the key
list; `Option.none` as soon as a key is missing or an intermediate value is
not a dict. -/
def lookupPath : JVal → List String → Option JVal
  | v, [] => some v
  | .dict d, k :: rest =>
    match dictGet d k with
    | some v => lookupPath v rest
    | Option.none => Option.none
  | _, _ :: _ => Option.none

/-- The body of `ConfigManager.get` (src/config.py:194-197): repeated
`current = current[key]`.  Indexing a dict with a missing key raises
`KeyError`; indexing any non-dict value with a string raises `TypeError`. -/
def getGo : JVal → List String → Except PyErr JVal
  | cur, [] => .ok cur
  | .dict d, k :: rest =>
    match dictGet d k with
    | some v => getGo v rest
    | Option.none => .error .keyError
  | _, _ :: _ => .error .typeError

/-- `ConfigManager.get` (src/config.py:180-199): split on `'.'`, descend, and
return `dflt` when the descent raises (`except (KeyError, TypeError)`). -/
def getValue (cfg : Jdict) (path : String) (dflt : JVal) : JVal :=
  match getGo (.dict cfg) (pySplitDot path) with
  | .ok v => v
  | .error _ => dflt

/-- The body of `ConfigManager.set` (src/config.py:209-219).  Navigation
creates `{}` for a missing intermediate key; meeting a pre-existing non-dict
value raises `TypeError` (either at `key not in current` / `current[key]`
during navigation or at the final item assignment).  Python only allocates
fresh `{}`s after the last pre-existing segment, so an exception implies the
tree was not yet mutated, and the functional update below is observationally
faithful. -/
def setGo : Jdict → List String → JVal → Except PyErr Jdict
  | d, [], _ => .ok d
  | d, [k], v => .ok (dictSet d k v)
  | d, k :: rest, v =>
    match dictGet d k with
    | Option.none =>
      match setGo [] rest v with
      | .ok sub => .ok (dictSet d k (.dict sub))
      | .error e => .error e
    | some (.dict sub) =>
      match setGo sub rest v with
      | .ok sub' => .ok (dictSet d k (.dict sub'))
      | .error e => .error e
    | some _ => .error .typeError

/-- `ConfigManager.set` (src/config.py:201-219). -/
def setValue (cfg : Jdict) (path : String) (v : JVal) : Except PyErr Jdict :=
  setGo cfg (pySplitDot path) v

/-- Specification-side predicate: the navigation of `set` along these keys
meets only dicts or missing keys (so nothing pre-existing is a non-dict).
`false` on the empty key list, which `split('.')` never produces. -/
def canSetL : Jdict → List String → Bool
  | _, [] => false
  | _, [_] => true
  | d, k :: rest =>
    match dictGet d k with
    | Option.none => true
    | some (.dict sub) => canSetL sub rest
    | some _ => false

/-- `ConfigManager._deep_merge` (src/config.py:172-178): for each key of
`update` in order, recurse when both sides hold dicts, otherwise the incoming
value replaces the existing one. -/
def deepMerge : Jdict → Jdict → Jdict
  | base, [] => base
  | base, (k, JVal.dict vsub) :: rest =>
    (match dictGet base k with
     | some (JVal.dict bsub) =>
       deepMerge (dictSet base k (JVal.dict (deepMerge bsub vsub))) rest
     | _ => deepMerge (dictSet base k (JVal.dict vsub)) rest)
  | base, (k, v) :: rest => deepMerge (dictSet base k v) rest
termination_by _ update => sizeOf update
decreasing_by all_goals (simp_wf; try omega)

/-- `ConfigManager._get_default_config` (src/config.py:22-57). -/
def defaultConfig : Jdict :=
  [("api", .dict
     [("testnet", .bool true), ("timeout", .int 30),
      ("retry_attempts", .int 3), ("rate_limit_buffer", .float 1 1)]),
   ("trading", .dict
     [("default_symbol", .str "BTCUSDT"), ("max_quantity", .int 1000),
      ("min_quantity", .float 1 3),
      ("supported_symbols", .list
        [.str "BTCUSDT", .str "ETHUSDT", .str "ADAUSDT", .str "DOTUSDT"]),
      ("default_order_type", .str "LIMIT")]),
   ("risk_management", .dict
     [("max_daily_trades", .int 50), ("max_position_size", .int 100),
      ("enable_stop_loss", .bool true), ("stop_loss_percentage", .float 2 0),
      ("take_profit_percentage", .float 5 0)]),
   ("logging", .dict
     [("log_level", .str "INFO"), ("max_log_size", .int 10485760),
      ("log_backup_count", .int 5), ("enable_trade_logging", .bool true),
      ("enable_error_logging", .bool true)]),
   ("ui", .dict
     [("show_confirmations", .bool true), ("auto_refresh_account", .bool false),
      ("display_precision", .int 8)])]

/-- The `env_mappings` table of `ConfigManager._load_from_env_vars`
(src/config.py:107-137), in source order. -/
def envMappings : List (String × String × String) :=
  [("BINANCE_API_KEY", "api", "key"),
   ("BINANCE_API_SECRET", "api", "secret"),
   ("BINANCE_TESTNET", "api", "testnet"),
   ("API_TIMEOUT", "api", "timeout"),
   ("API_RETRY_ATTEMPTS", "api", "retry_attempts"),
   ("DEFAULT_SYMBOL", "trading", "default_symbol"),
   ("MAX_QUANTITY", "trading", "max_quantity"),
   ("MIN_QUANTITY", "trading", "min_quantity"),
   ("DEFAULT_ORDER_TYPE", "trading", "default_order_type"),
   ("MAX_DAILY_TRADES", "risk_management", "max_daily_trades"),
   ("MAX_POSITION_SIZE", "risk_management", "max_position_size"),
   ("ENABLE_STOP_LOSS", "risk_management", "enable_stop_loss"),
   ("STOP_LOSS_PERCENTAGE", "risk_management", "stop_loss_percentage"),
   ("TAKE_PROFIT_PERCENTAGE", "risk_management", "take_profit_percentage"),
   ("LOG_LEVEL", "logging", "log_level"),
   ("MAX_LOG_SIZE", "logging", "max_log_size"),
   ("LOG_BACKUP_COUNT", "logging", "log_backup_count"),
   ("SHOW_CONFIRMATIONS", "ui", "show_confirmations"),
   ("AUTO_REFRESH_ACCOUNT", "ui", "auto_refresh_account"),
   ("DISPLAY_PRECISION", "ui", "display_precision")]

/-- One iteration of the `_load_from_env_vars` loop body
(src/config.py:139-148): create the section dict if the key is absent, then
assign.  When the section name is bound to a non-dict (possible after a JSON
merge), the item assignment `self.config[section][config_key] = v` raises
`TypeError`, which `load_config` does not catch. -/
def setSectionKey (cfg : Jdict) (sec key : String) (v : JVal) :
    Except PyErr Jdict :=
  match dictGet cfg sec with
  | Option.none => .ok (dictSet cfg sec (.dict [(key, v)]))
  | some (.dict d) => .ok (dictSet cfg sec (.dict (dictSet d key v)))
  | some _ => .error .typeError

/-- `ConfigManager._load_from_env_vars` (src/config.py:105-148), iterating the
mapping table in source order over the process environment `env`. -/
def envPass (env : String → Option String) :
    Jdict → List (String × String × String) → Except PyErr Jdict
  | cfg, [] => .ok cfg
  | cfg, (ek, sec, key) :: rest =>
    match env ek with
    | Option.none => envPass env cfg rest
    | some s =>
      match setSectionKey cfg sec key (convertEnvValue s) with
      | .ok cfg' => envPass env cfg' rest
      | .error e => .error e

/-- `ConfigManager.load_config` (src/config.py:59-73) as the value of the
resulting tree: start from the defaults, deep-merge the structured file when
one exists and parses as a dict (`_load_from_json` catches every parse or
merge exception, so a missing, malformed or non-dict file is `Option.none`
here), then run the environment pass.  `env` is the process environment after
`_load_from_env_file` has written the dotenv lines into it.  The aliasing the
shallow `self.defaults.copy()` introduces between `self.config` and
`self.defaults` does not affect the value of `self.config` and is modelled
separately (`HVal` below). -/
def loadConfig (jsonFile : Option Jdict) (env : String → Option String) :
    Except PyErr Jdict :=
  let start :=
    match jsonFile with
    | Option.none => defaultConfig
    | some doc => deepMerge defaultConfig doc
  envPass env start envMappings

/-- `k not in ['key', 'secret']` (src/config.py:251). -/
def notCredKey (k : String) : Bool := ¬ (k = "key" ∨ k = "secret")

/-- `values.copy()` in `_create_safe_config` (src/config.py:254): dicts and
lists have `.copy`; scalars raise `AttributeError`. -/
def copyValue : JVal → Except PyErr JVal
  | .dict d => .ok (.dict d)
  | .list xs => .ok (.list xs)
  | _ => .error .attributeError

/-- The loop of `ConfigManager._create_safe_config` (src/config.py:246-254),
accumulating `safe_config` by assignment: the `api` section is rebuilt by the
comprehension that drops `key` and `secret` (and raises `AttributeError` via
`values.items()` when the section value is not a dict); every other section is
`values.copy()`. -/
def safeGo : Jdict → Jdict → Except PyErr Jdict
  | acc, [] => .ok acc
  | acc, (sec, v) :: rest =>
    if sec = "api" then
      match v with
      | .dict d =>
        safeGo (dictSet acc sec (.dict (d.filter (fun kv => notCredKey kv.1)))) rest
      | _ => .error .attributeError
    else
      match copyValue v with
      | .ok c => safeGo (dictSet acc sec c) rest
      | .error e => .error e

/-- `ConfigManager._create_safe_config` (src/config.py:242-256). -/
def createSafeConfig (cfg : Jdict) : Except PyErr Jdict := safeGo [] cfg

/-- `save_config(path)` followed by a fresh `load_config()` with `path` as the
structured file, no dotenv file and no mapped environment variables.
`save_config` catches every exception (src/config.py:230-240), so when the
safe-config construction raises, no file is written and the subsequent load
sees no structured file.  The JSON text written and re-parsed in between is
value-faithful for the modelled values, so the file content is the safe tree
itself. -/
def roundTrip (cfg : Jdict) : Except PyErr Jdict :=
  match createSafeConfig cfg with
  | .ok safe => loadConfig (some safe) (fun _ => Option.none)
  | .error _ => loadConfig Option.none (fun _ => Option.none)

/-- `ConfigManager.get_api_credentials` (src/config.py:258-269): read
`api.key` and `api.secret` (default `None`) and raise `ValueError` when either
is falsy. -/
def getApiCredentials (cfg : Jdict) : Except PyErr (JVal × JVal) :=
  let k := getValue cfg "api.key" .none
  let s := getValue cfg "api.secret" .none
  if ¬ pyTruthy k ∨ ¬ pyTruthy s then .error .valueError else .ok (k, s)

/-- `ConfigManager.get_risk_limits` (src/config.py:283-290), in source
order. -/
def getRiskLimits (cfg : Jdict) : List (String × JVal) :=
  [("max_daily_trades", getValue cfg "risk_management.max_daily_trades" (.int 50)),
   ("max_position_size", getValue cfg "risk_management.max_position_size" (.int 100)),
   ("max_quantity", getValue cfg "trading.max_quantity" (.int 1000)),
   ("min_quantity", getValue cfg "trading.min_quantity" (.float 1 3))]

/-- `isinstance(v, (int, float))`; Python's `bool` is a subclass of `int`, so
it passes the check, and the non-finite floats are floats. -/
def isNumber : JVal → Bool
  | .bool _ => true
  | .int _ => true
  | .float _ _ => true
  | .inf => true
  | .negInf => true
  | .nan => true
  | _ => false

/-- `v <= 0` for the values `isNumber` accepts (`True` counts as 1, `False`
as 0; `nan <= 0` is false). -/
def numLeZero : JVal → Bool
  | .bool b => b = false
  | .int n => n ≤ 0
  | .float num _ => num ≤ 0
  | .negInf => true
  | _ => false

/-- The numeric-limits check of `validate_config` (src/config.py:309-313):
every limit is an `int`/`float` instance strictly greater than zero. -/
def limitsOk (cfg : Jdict) : Bool :=
  (getRiskLimits cfg).all (fun kv => isNumber kv.2 && ¬ numLeZero kv.2)

/-- `ConfigManager.get_default_symbol` (src/config.py:275-277). -/
def getDefaultSymbol (cfg : Jdict) : JVal :=
  getValue cfg "trading.default_symbol" (.str "BTCUSDT")

/-- The symbol check of `validate_config` (src/config.py:316-319):
`isinstance(s, str) and len(s) >= 3`. -/
def symbolOk (cfg : Jdict) : Bool :=
  match getDefaultSymbol cfg with
  | .str s => 3 ≤ s.length
  | _ => false

/-- The accepted log levels (src/config.py:323). -/
def logLevels : List String := ["DEBUG", "INFO", "WARNING", "ERROR", "CRITICAL"]

/-- The `try:` block of `ConfigManager.validate_config`
(src/config.py:304-327): credentials check (may raise `ValueError`), limit
checks, symbol check, then `log_level.upper()` — an `AttributeError` when the
stored level is not a string — membership test. -/
def validateBody (cfg : Jdict) : Except PyErr Bool :=
  match getApiCredentials cfg with
  | .error e => .error e
  | .ok _ =>
    if ¬ limitsOk cfg then .ok false
    else if ¬ symbolOk cfg then .ok false
    else
      match getValue cfg "logging.log_level" (.str "INFO") with
      | .str lvl => .ok (asciiUpper lvl ∈ logLevels)
      | _ => .error .attributeError

/-- `ConfigManager.validate_config` (src/config.py:302-334): the `except`
clauses turn every exception raised by the body into `False`. -/
def validateConfig (cfg : Jdict) : Bool :=
  match validateBody cfg with
  | .ok b => b
  | .error _ => false

/-- A value slot of a Python dict under reference semantics: either an
immutable (or never-mutated) value, or a reference to a dict object on the
heap.  This refined model makes the aliasing introduced by the shallow
`self.defaults.copy()` in `load_config` (src/config.py:62) observable. -/
inductive HVal where
  | prim (v : JVal)
  | ref (a : Nat)

/-- A dict object's entry list under reference semantics. -/
abbrev HDict := List (String × HVal)

/-- The heap: dict objects addressed by allocation number. -/
abbrev Heap := List (Nat × HDict)

/-- Read a dict object from the heap. -/
def heapFind : Heap → Nat → Option HDict
  | [], _ => Option.none
  | (a', d) :: rest, a => if a' = a then some d else heapFind rest a

/-- Overwrite a dict object on the heap. -/
def heapSet : Heap → Nat → HDict → Heap
  | [], _, _ => []
  | (a', d') :: rest, a, d =>
    if a' = a then (a', d) :: rest else (a', d') :: heapSet rest a d

/-- `d[k]` on a dict object's entries. -/
def hdictGet : HDict → String → Option HVal
  | [], _ => Option.none
  | (k', v) :: rest, k => if k' = k then some v else hdictGet rest k

/-- `d[k] = v` on a dict object's entries. -/
def hdictSet : HDict → String → HVal → HDict
  | [], k, v => [(k, v)]
  | (k', v') :: rest, k, v =>
    if k' = k then (k', v) :: rest else (k', v') :: hdictSet rest k v

/-- Dereference a slot into the plain value it denotes (`fuel` bounds the
depth; every tree in this development has depth below any fuel used). -/
def hRead (h : Heap) : Nat → HVal → JVal
  | _, .prim v => v
  | 0, .ref _ => .none
  | fuel + 1, .ref a =>
    match heapFind h a with
    | some d => .dict (d.map (fun kv => (kv.1, hRead h fuel kv.2)))
    | Option.none => .none

/-- The object graph `_get_default_config` builds (src/config.py:22-57):
the root dict at address 0 holds references to the five section dicts at
addresses 1-5.  `hRead` of address 0 yields exactly `defaultConfig`. -/
def defaultsHeap : Heap :=
  [(0, [("api", .ref 1), ("trading", .ref 2), ("risk_management", .ref 3),
        ("logging", .ref 4), ("ui", .ref 5)]),
   (1, [("testnet", .prim (.bool true)), ("timeout", .prim (.int 30)),
        ("retry_attempts", .prim (.int 3)),
        ("rate_limit_buffer", .prim (.float 1 1))]),
   (2, [("default_symbol", .prim (.str "BTCUSDT")),
        ("max_quantity", .prim (.int 1000)),
        ("min_quantity", .prim (.float 1 3)),
        ("supported_symbols", .prim (.list
          [.str "BTCUSDT", .str "ETHUSDT", .str "ADAUSDT", .str "DOTUSDT"])),
        ("default_order_type", .prim (.str "LIMIT"))]),
   (3, [("max_daily_trades", .prim (.int 50)),
        ("max_position_size", .prim (.int 100)),
        ("enable_stop_loss", .prim (.bool true)),
        ("stop_loss_percentage", .prim (.float 2 0)),
        ("take_profit_percentage", .prim (.float 5 0))]),
   (4, [("log_level", .prim (.str "INFO")),
        ("max_log_size", .prim (.int 10485760)),
        ("log_backup_count", .prim (.int 5)),
        ("enable_trade_logging", .prim (.bool true)),
        ("enable_error_logging", .prim (.bool true))]),
   (5, [("show_confirmations", .prim (.bool true)),
        ("auto_refresh_account", .prim (.bool false)),
        ("display_precision", .prim (.int 8))])]

/-- One `_load_from_env_vars` loop iteration (src/config.py:139-148) under
reference semantics: create a fresh empty section dict when the key is
absent, then perform the item assignment `self.config[section][key] = v` on
the dict object the section slot references — which `self.defaults` may also
reference.  `Option.none` models an uncaught `TypeError`. -/
def hEnvStep (st : Heap × Nat) (cfgAddr : Nat) (sec key : String) (v : JVal) :
    Option (Heap × Nat) :=
  let (h, fresh) := st
  match heapFind h cfgAddr with
  | Option.none => Option.none
  | some entries =>
    let h1fresh1 :=
      match hdictGet entries sec with
      | Option.none =>
        (heapSet (h ++ [(fresh, [])]) cfgAddr (hdictSet entries sec (.ref fresh)),
         fresh + 1)
      | some _ => (h, fresh)
    match heapFind h1fresh1.1 cfgAddr with
    | Option.none => Option.none
    | some entries1 =>
      match hdictGet entries1 sec with
      | some (.ref a) =>
        match heapFind h1fresh1.1 a with
        | some d =>
          some (heapSet h1fresh1.1 a (hdictSet d key (.prim v)), h1fresh1.2)
        | Option.none => Option.none
      | _ => Option.none

/-- `_load_from_env_vars` under reference semantics. -/
def hEnvPass (env : String → Option String) (cfgAddr : Nat) :
    Heap × Nat → List (String × String × String) → Option (Heap × Nat)
  | st, [] => some st
  | st, (ek, sec, key) :: rest =>
    match env ek with
    | Option.none => hEnvPass env cfgAddr st rest
    | some s =>
      match hEnvStep st cfgAddr sec key (convertEnvValue s) with
      | some st' => hEnvPass env cfgAddr st' rest
      | Option.none => Option.none

/-- `load_config` (src/config.py:59-73) under reference semantics, with no
structured file and no dotenv file: `self.config = self.defaults.copy()`
allocates a new top-level dict (address 6) holding the same entry list — and
hence the same section-dict references — as `self.defaults` (address 0), and
the environment pass then mutates the shared section dicts. -/
def heapAfterLoad (env : String → Option String) : Option Heap :=
  match heapFind defaultsHeap 0 with
  | Option.none => Option.none
  | some root =>
    (hEnvPass env 6 (defaultsHeap ++ [(6, root)], 7) envMappings).map Prod.fst

/-- Is the value a Python dict? -/
def jIsDict : JVal → Bool
  | .dict _ => true
  | _ => false

/-- Read the entry `(sec, key)` of a two-level tree (the observation the
spec's precedence sentence makes). -/
def lookup2 (cfg : Jdict) (sec key : String) : Option JVal :=
  match dictGet cfg sec with
  | some (.dict d) => dictGet d key
  | _ => Option.none

/-- The merge step `_deep_merge` performs for one key of the update document
(src/config.py:174-178), factored out of `deepMerge`. -/
def mergeStep (base : Jdict) (k : String) (v : JVal) : Jdict :=
  match dictGet base k, v with
  | some (.dict bsub), .dict vsub => dictSet base k (.dict (deepMerge bsub vsub))
  | _, _ => dictSet base k v

/-- The spec sentence for deep-merge, written as the per-key observation:
a key absent from the update keeps the base value; a key present in both
with dict values on both sides merges recursively; any other present key is
replaced by the update value. -/
def mergeSpec (base update : Jdict) (k : String) : Option JVal :=
  match dictGet update k with
  | Option.none => dictGet base k
  | some v =>
    match dictGet base k, v with
    | some (.dict bsub), .dict vsub => some (.dict (deepMerge bsub vsub))
    | _, _ => some v

/-- The dicts met when descending along the given key list all have
pairwise-distinct keys (true of every real Python dict). -/
def nodupAlongB : Jdict → List String → Bool
  | _, [] => true
  | d, k :: rest =>
    decide ((d.map Prod.fst).Nodup) &&
      (match dictGet d k with
       | some (.dict sub) => nodupAlongB sub rest
       | _ => true)

/-- The scrub `_create_safe_config` applies to the `api` section: drop the
`key` and `secret` entries of a dict; other values are left as they are. -/
def scrubApi : JVal → JVal
  | .dict d => .dict (d.filter (fun kv => notCredKey kv.1))
  | v => v

/-- The value `_create_safe_config` stores for a section on success. -/
def safeTransform (sec : String) (v : JVal) : JVal :=
  if sec = "api" then scrubApi v else v

/-- The credentials check of `validate_config`, as the spec states it: both
`api.key` and `api.secret` present and truthy. -/
def credOk (cfg : Jdict) : Bool :=
  pyTruthy (getValue cfg "api.key" .none) && pyTruthy (getValue cfg "api.secret" .none)

/-- The log-level check of `validate_config`, as the spec states it: the
stored level is a string whose upper-casing is an accepted level. -/
def levelOk (cfg : Jdict) : Bool :=
  match getValue cfg "logging.log_level" (.str "INFO") with
  | .str s => decide (asciiUpper s ∈ logLevels)
  | _ => false

theorem dictGet_dictSet_self (d : Jdict) (k : String) (v : JVal) :
    dictGet (dictSet d k v) k = some v := by
  induction d with
  | nil => simp [dictGet, dictSet]
  | cons kv rest ih =>
    obtain ⟨k', v'⟩ := kv
    by_cases h : k' = k <;> simp [dictGet, dictSet, h, ih]

theorem dictGet_dictSet_ne (d : Jdict) (k k' : String) (v : JVal) (h : k' ≠ k) :
    dictGet (dictSet d k v) k' = dictGet d k' := by
  induction d with
  | nil => simp [dictGet, dictSet, Ne.symm h]
  | cons kv rest ih =>
    obtain ⟨k0, v0⟩ := kv
    by_cases h0 : k0 = k <;> by_cases h1 : k0 = k' <;>
      simp_all [dictGet, dictSet, Ne.symm h]

theorem getGo_getD (keys : List String) : ∀ (cur dflt : JVal),
    (match getGo cur keys with | .ok v => v | .error _ => dflt) =
      (lookupPath cur keys).getD dflt := by
  induction keys with
  | nil => intro cur dflt; simp [getGo, lookupPath]
  | cons k rest ih =>
    intro cur dflt
    cases cur <;> simp [getGo, lookupPath]
    case dict d => cases h : dictGet d k <;> simp [h, ih]

/-- C7.  `get` is total: for every dotted path string and fallback, the call
never raises, and it returns the value reached by splitting on `'.'` and
descending key by key through the dicts when that succeeds, and the fallback
in every other case (missing segment, or an intermediate value that is not a
dict). -/
theorem get_total_spec (cfg : Jdict) (path : String) (dflt : JVal) :
    getValue cfg path dflt = (lookupPath (.dict cfg) (pySplitDot path)).getD dflt :=
  getGo_getD (pySplitDot path) (.dict cfg) dflt

/-- C2.  `_convert_env_value` applies exactly the ordered rule: a
case-insensitive match of `true`/`false` yields the boolean; otherwise a
string without `'.'` accepted by `int()` yields that integer; otherwise a
string accepted by `float()` yields that float; otherwise the string is
returned unmodified — and on the spec's concrete inputs: `"10"` to the
integer 10, `"10.5"` to the float 10.5, `"TRUE"` to boolean true, `"abc"` to
the string `"abc"`. -/
theorem convert_env_value_spec :
    (∀ s : String, asciiLower s = "true" → convertEnvValue s = .bool true) ∧
    (∀ s : String, asciiLower s = "false" → convertEnvValue s = .bool false) ∧
    (∀ (s : String) (n : Int), asciiLower s ≠ "true" → asciiLower s ≠ "false" →
      '.' ∉ s.data → pyIntParse s = some n →
      convertEnvValue s = .int n) ∧
    (∀ (s : String) (v : JVal), asciiLower s ≠ "true" → asciiLower s ≠ "false" →
      ('.' ∈ s.data ∨ pyIntParse s = Option.none) →
      pyFloatParse s = some v → convertEnvValue s = v) ∧
    (∀ s : String, asciiLower s ≠ "true" → asciiLower s ≠ "false" →
      ('.' ∈ s.data ∨ pyIntParse s = Option.none) →
      pyFloatParse s = Option.none → convertEnvValue s = .str s) ∧
    convertEnvValue "10" = .int 10 ∧ convertEnvValue "10.5" = .float 105 1 ∧
    convertEnvValue "TRUE" = .bool true ∧ convertEnvValue "abc" = .str "abc" ∧
    convertEnvValue "1e3" = .float 1000 0 := by
  refine ⟨?_, ?_, ?_, ?_, ?_, rfl, rfl, rfl, rfl, rfl⟩
  · intro s h; simp [convertEnvValue, h]
  · intro s h; simp [convertEnvValue, h]
  · intro s n h1 h2 h3 h4; simp [convertEnvValue, h1, h2, h3, h4]
  · intro s v h1 h2 h3 h4
    rcases h3 with h3 | h3
    · simp [convertEnvValue, h1, h2, h3, h4]
    · by_cases hc : '.' ∈ s.data <;>
        simp [convertEnvValue, h1, h2, h3, h4, hc]
  · intro s h1 h2 h3 h4
    rcases h3 with h3 | h3
    · simp [convertEnvValue, h1, h2, h3, h4]
    · by_cases hc : '.' ∈ s.data <;>
        simp [convertEnvValue, h1, h2, h3, h4, hc]

theorem convert_env_value_spec_witness :
    convertEnvValue "True" = .bool true ∧ convertEnvValue "7" = .int 7 :=
  ⟨convert_env_value_spec.1 "True" (by rfl),
   convert_env_value_spec.2.2.1 "7" 7 (by decide) (by decide) (by decide) (by rfl)⟩

theorem splitDotAux_ne_nil (cs : List Char) : ∀ acc, splitDotAux acc cs ≠ [] := by
  induction cs with
  | nil => intro acc; simp [splitDotAux]
  | cons c rest ih =>
    intro acc
    by_cases h : c = '.' <;> simp [splitDotAux, h, ih]

theorem pySplitDot_ne_nil (path : String) : pySplitDot path ≠ [] :=
  splitDotAux_ne_nil path.data []

theorem canSetL_nil_cons (k : String) (rest : List String) :
    canSetL [] (k :: rest) = true := by
  cases rest <;> simp [canSetL, dictGet]

theorem setGo_ok (keys : List String) : ∀ (d : Jdict) (v : JVal),
    canSetL d keys = true →
    ∃ d', setGo d keys v = .ok d' ∧ lookupPath (.dict d') keys = some v := by
  induction keys with
  | nil => intro d v h; simp [canSetL] at h
  | cons k rest ih =>
    intro d v h
    cases rest with
    | nil =>
      exact ⟨dictSet d k v, rfl, by simp [lookupPath, dictGet_dictSet_self]⟩
    | cons k2 rest2 =>
      rw [show canSetL d (k :: k2 :: rest2) =
            (match dictGet d k with
             | Option.none => true
             | some (.dict sub) => canSetL sub (k2 :: rest2)
             | some _ => false) from rfl] at h
      cases hd : dictGet d k with
      | none =>
        obtain ⟨sub', h1, h2⟩ := ih [] v (canSetL_nil_cons k2 rest2)
        refine ⟨dictSet d k (.dict sub'), ?_, ?_⟩
        · simp [setGo, hd, h1]
        · simp [lookupPath, dictGet_dictSet_self]
          exact h2
      | some u =>
        rw [hd] at h
        cases u with
        | dict sub =>
          obtain ⟨sub', h1, h2⟩ := ih sub v h
          refine ⟨dictSet d k (.dict sub'), ?_, ?_⟩
          · simp [setGo, hd, h1]
          · simp [lookupPath, dictGet_dictSet_self]
            exact h2
        | none => simp at h
        | bool b => simp at h
        | int n => simp at h
        | float num scale => simp at h
        | inf => simp at h
        | negInf => simp at h
        | nan => simp at h
        | str s => simp at h
        | list xs => simp at h

theorem setGo_err (keys : List String) : ∀ (d : Jdict) (v : JVal),
    keys ≠ [] → canSetL d keys = false → setGo d keys v = .error .typeError := by
  induction keys with
  | nil => intro d v h; exact absurd rfl h
  | cons k rest ih =>
    intro d v _ h
    cases rest with
    | nil => simp [canSetL] at h
    | cons k2 rest2 =>
      rw [show canSetL d (k :: k2 :: rest2) =
            (match dictGet d k with
             | Option.none => true
             | some (.dict sub) => canSetL sub (k2 :: rest2)
             | some _ => false) from rfl] at h
      cases hd : dictGet d k with
      | none => rw [hd] at h; simp at h
      | some u =>
        rw [hd] at h
        cases u with
        | dict sub =>
          have := ih sub v (by simp) h
          simp [setGo, hd, this]
        | none => simp [setGo, hd]
        | bool b => simp [setGo, hd]
        | int n => simp [setGo, hd]
        | float num scale => simp [setGo, hd]
        | inf => simp [setGo, hd]
        | negInf => simp [setGo, hd]
        | nan => simp [setGo, hd]
        | str s => simp [setGo, hd]
        | list xs => simp [setGo, hd]

/-- C3 counterexample.  The claim says `set` always completes without error,
"also when an intermediate segment currently holds a scalar": on the tree
`{"a": 5}`, `set("a.b", 1)` raises `TypeError` (the item assignment
`5["b"] = 1` in src/config.py:219). -/
theorem set_scalar_raises :
    setValue [("a", JVal.int 5)] "a.b" (JVal.int 1) = .error .typeError := by rfl

/-- C3 amended.  `set(path, value)` splits on `'.'` and succeeds — creating
empty dicts for missing intermediate segments, with `get(path)` then
returning the value — whenever every pre-existing segment it navigates
through holds a dict; but when a navigated segment (or the parent of the
final segment) currently holds a non-dict value, `set` raises `TypeError`
instead of completing. -/
theorem set_spec (cfg : Jdict) (path : String) (v : JVal) :
    (canSetL cfg (pySplitDot path) = true →
      (setValue cfg path v).map (fun c => getValue c path .none) = .ok v) ∧
    (canSetL cfg (pySplitDot path) = false →
      setValue cfg path v = .error .typeError) := by
  constructor
  · intro h
    obtain ⟨d', h1, h2⟩ := setGo_ok (pySplitDot path) cfg v h
    have hg : getValue d' path JVal.none = v := by
      show (match getGo (.dict d') (pySplitDot path) with
            | .ok x => x | .error _ => JVal.none) = v
      rw [getGo_getD (pySplitDot path) (.dict d') JVal.none, h2]
      rfl
    show (setGo cfg (pySplitDot path) v).map (fun c => getValue c path .none) = .ok v
    rw [h1]
    simp [Except.map, hg]
  · intro h
    exact setGo_err (pySplitDot path) cfg v (pySplitDot_ne_nil path) h

theorem set_spec_witness :
    (setValue [] "a.b.c" (JVal.int 1)).map (fun c => getValue c "a.b.c" .none) =
      .ok (JVal.int 1) :=
  (set_spec [] "a.b.c" (JVal.int 1)).1 (by decide)

theorem mergeStep_eq_dictSet (base : Jdict) (k : String) (v : JVal) :
    ∃ w, mergeStep base k v = dictSet base k w := by
  unfold mergeStep
  cases hb : dictGet base k with
  | none => cases v <;> exact ⟨_, rfl⟩
  | some u => cases u <;> cases v <;> exact ⟨_, rfl⟩

theorem deepMerge_cons (base : Jdict) (k : String) (v : JVal) (rest : Jdict) :
    deepMerge base ((k, v) :: rest) = deepMerge (mergeStep base k v) rest := by
  cases hb : dictGet base k with
  | none => cases v <;> simp [deepMerge, mergeStep, hb]
  | some u => cases u <;> cases v <;> simp [deepMerge, mergeStep, hb]

theorem deepMerge_get_notMem (update : Jdict) : ∀ (base : Jdict) (k : String),
    k ∉ update.map Prod.fst → dictGet (deepMerge base update) k = dictGet base k := by
  induction update with
  | nil => intro base k _; simp [deepMerge]
  | cons kv rest ih =>
    obtain ⟨k0, v0⟩ := kv
    intro base k h
    simp only [List.map_cons, List.mem_cons, not_or] at h
    rw [deepMerge_cons, ih (mergeStep base k0 v0) k h.2]
    obtain ⟨w, hw⟩ := mergeStep_eq_dictSet base k0 v0
    rw [hw, dictGet_dictSet_ne _ _ _ _ h.1]

theorem deepMerge_get (update : Jdict) : ∀ (base : Jdict) (k : String),
    (update.map Prod.fst).Nodup →
    dictGet (deepMerge base update) k = mergeSpec base update k := by
  induction update with
  | nil => intro base k _; simp [deepMerge, mergeSpec, dictGet]
  | cons kv rest ih =>
    obtain ⟨k0, v0⟩ := kv
    intro base k hnd
    simp only [List.map_cons, List.nodup_cons] at hnd
    rw [deepMerge_cons]
    by_cases hk : k = k0
    · subst hk
      rw [deepMerge_get_notMem rest _ k hnd.1]
      cases hb : dictGet base k with
      | none =>
        cases v0 <;>
          simp [mergeStep, mergeSpec, dictGet, hb, dictGet_dictSet_self]
      | some u =>
        cases u <;> cases v0 <;>
          simp [mergeStep, mergeSpec, dictGet, hb, dictGet_dictSet_self]
    · rw [ih (mergeStep base k0 v0) k hnd.2]
      obtain ⟨w, hw⟩ := mergeStep_eq_dictSet base k0 v0
      have hbase : dictGet (dictSet base k0 w) k = dictGet base k :=
        dictGet_dictSet_ne _ _ _ _ hk
      have hcons : dictGet ((k0, v0) :: rest) k = dictGet rest k := by
        simp [dictGet, Ne.symm hk]
      simp only [mergeSpec, hw, hbase, hcons]

/-- C5.  Deep-merge visits each key of the incoming document: when both the
existing and the incoming value at a key are dicts it recurses, in every
other case the incoming value replaces the existing one, and keys the
incoming document does not mention keep their base value (`mergeSpec` is
exactly this case split); consequently merging
`{"trading": {"max_quantity": 5}}` over the defaults sets
`trading.max_quantity` to 5, leaves `trading.default_symbol` unchanged, and
leaves every section other than `trading` unchanged. -/
theorem deep_merge_spec :
    (∀ (base update : Jdict) (k : String), (update.map Prod.fst).Nodup →
      dictGet (deepMerge base update) k = mergeSpec base update k) ∧
    getValue (deepMerge defaultConfig [("trading", .dict [("max_quantity", .int 5)])])
      "trading.max_quantity" .none = .int 5 ∧
    getValue (deepMerge defaultConfig [("trading", .dict [("max_quantity", .int 5)])])
      "trading.default_symbol" .none = .str "BTCUSDT" ∧
    (∀ k, k ≠ "trading" →
      dictGet (deepMerge defaultConfig [("trading", .dict [("max_quantity", .int 5)])]) k =
        dictGet defaultConfig k) := by
  refine ⟨fun base update k h => deepMerge_get update base k h, ?_, ?_, ?_⟩
  · simp [deepMerge, dictGet, dictSet, defaultConfig]; rfl
  · simp [deepMerge, dictGet, dictSet, defaultConfig]; rfl
  · intro k hk
    exact deepMerge_get_notMem _ _ _ (by simp [hk])

theorem deep_merge_spec_witness :
    dictGet (deepMerge [("a", JVal.int 1)] [("b", JVal.int 2)]) "b" =
      mergeSpec [("a", JVal.int 1)] [("b", JVal.int 2)] "b" ∧
    dictGet (deepMerge defaultConfig [("trading", JVal.dict [("max_quantity", JVal.int 5)])])
      "api" = dictGet defaultConfig "api" :=
  ⟨deep_merge_spec.1 [("a", JVal.int 1)] [("b", JVal.int 2)] "b" (by decide),
   deep_merge_spec.2.2.2 "api" (by decide)⟩

/-- C6.  `validate_config` checks, in order and stopping at the first
failure: (1) `api.key`/`api.secret` present and truthy, (2) the four limits
numeric and strictly positive, (3) `trading.default_symbol` a string of
length at least 3, (4) `logging.log_level` case-insensitively an accepted
level — its boolean result is the conjunction of the four checks; it returns
false when `api.key` is empty, when the default symbol has length 2, when
`max_daily_trades` is 0 or negative, or when the log level is `"VERBOSE"`,
and true when all four checks pass. -/
theorem validate_spec :
    (∀ cfg : Jdict, validateConfig cfg =
      (credOk cfg && limitsOk cfg && symbolOk cfg && levelOk cfg)) ∧
    validateConfig [("api", .dict [("key", .str ""), ("secret", .str "s")])] = false ∧
    validateConfig [("api", .dict [("key", .str "k"), ("secret", .str "s")]),
                    ("trading", .dict [("default_symbol", .str "AB")])] = false ∧
    validateConfig [("api", .dict [("key", .str "k"), ("secret", .str "s")]),
                    ("risk_management", .dict [("max_daily_trades", .int 0)])] = false ∧
    validateConfig [("api", .dict [("key", .str "k"), ("secret", .str "s")]),
                    ("risk_management", .dict [("max_daily_trades", .int (-3))])] = false ∧
    validateConfig [("api", .dict [("key", .str "k"), ("secret", .str "s")]),
                    ("logging", .dict [("log_level", .str "VERBOSE")])] = false ∧
    validateConfig [("api", .dict [("key", .str "k"), ("secret", .str "s")])] = true := by
  refine ⟨?_, rfl, rfl, rfl, rfl, rfl, rfl⟩
  intro cfg
  by_cases hc : credOk cfg
  · have hc' := hc
    simp only [credOk, Bool.and_eq_true] at hc'
    have hcred : getApiCredentials cfg =
        .ok (getValue cfg "api.key" .none, getValue cfg "api.secret" .none) := by
      simp [getApiCredentials, hc'.1, hc'.2]
    simp only [validateConfig, validateBody, hcred, hc, Bool.true_and]
    by_cases hl : limitsOk cfg
    · by_cases hs : symbolOk cfg
      · cases hlvl : getValue cfg "logging.log_level" (.str "INFO") <;>
          simp [levelOk, hl, hs, hlvl]
      · simp [hl, hs]
    · simp [hl]
  · have hc' := hc
    simp only [credOk, Bool.and_eq_true, not_and_or] at hc'
    have hcred : getApiCredentials cfg = .error .valueError := by
      rcases hc' with h | h <;> simp [getApiCredentials, h]
    simp [validateConfig, validateBody, hcred, hc]

/-- C10.  `validate_config` never lets an exception escape: whenever its body
raises (for instance the `AttributeError` from `log_level.upper()` when the
stored level is a number), the `except` clauses make the call return false. -/
theorem validate_never_raises :
    (∀ (cfg : Jdict) (e : PyErr), validateBody cfg = .error e →
      validateConfig cfg = false) ∧
    validateBody [("api", .dict [("key", .str "k"), ("secret", .str "s")]),
                  ("logging", .dict [("log_level", .int 5)])] = .error .attributeError ∧
    validateConfig [("api", .dict [("key", .str "k"), ("secret", .str "s")]),
                  ("logging", .dict [("log_level", .int 5)])] = false := by
  refine ⟨?_, rfl, rfl⟩
  intro cfg e h
  unfold validateConfig
  rw [h]

theorem validate_never_raises_witness :
    validateConfig [("api", .dict [("key", .str "k"), ("secret", .str "s")]),
                    ("logging", .dict [("log_level", .bool true)])] = false :=
  validate_never_raises.1 _ .attributeError rfl

/-- C4 evidence.  Before any load, reading `self.defaults` off the heap gives
exactly the built-in tree; but running `load_config()` with only
`BINANCE_API_KEY=k` in the environment (no structured file, no dotenv file)
writes `api.key` through the section dict shared by the shallow
`self.defaults.copy()` — afterwards `self.defaults` contains `api.key`,
which the built-in tree does not, so the stored defaults no longer equal the
built-in defaults.  (The spec's "deep copy of the built-in defaults" is the
evident intent; `dict.copy()` on line 62 of src/config.py is shallow.) -/
theorem load_mutates_defaults :
    hRead defaultsHeap 3 (.ref 0) = .dict defaultConfig ∧
    (heapAfterLoad (fun k => if k = "BINANCE_API_KEY" then some "k" else Option.none)).map
      (fun h => lookupPath (hRead h 3 (.ref 0)) ["api", "key"]) =
      some (some (.str "k")) ∧
    lookupPath (.dict defaultConfig) ["api", "key"] = Option.none ∧
    (heapAfterLoad (fun k => if k = "BINANCE_API_KEY" then some "k" else Option.none)).map
      (fun h => hRead h 3 (.ref 0)) ≠ some (.dict defaultConfig) := by
  refine ⟨rfl, rfl, rfl, ?_⟩
  intro heq
  have h2 : (heapAfterLoad
      (fun k => if k = "BINANCE_API_KEY" then some "k" else Option.none)).map
      (fun h => lookupPath (hRead h 3 (.ref 0)) ["api", "key"]) =
      some (some (.str "k")) := rfl
  cases hh : heapAfterLoad
      (fun k => if k = "BINANCE_API_KEY" then some "k" else Option.none) with
  | none => rw [hh] at h2; exact Option.noConfusion h2
  | some H =>
    rw [hh] at heq h2
    simp only [Option.map_some'] at heq h2
    have heq' : hRead H 3 (.ref 0) = .dict defaultConfig := Option.some.inj heq
    rw [heq'] at h2
    rw [show lookupPath (.dict defaultConfig) ["api", "key"] = Option.none from rfl] at h2
    exact Option.noConfusion (Option.some.inj h2)

theorem setSectionKey_ok_inv (cfg : Jdict) (s k : String) (v : JVal) (c : Jdict)
    (h : setSectionKey cfg s k v = .ok c) :
    (dictGet cfg s = Option.none ∧ c = dictSet cfg s (.dict [(k, v)])) ∨
    (∃ d, dictGet cfg s = some (.dict d) ∧ c = dictSet cfg s (.dict (dictSet d k v))) := by
  unfold setSectionKey at h
  cases hd : dictGet cfg s with
  | none =>
    rw [hd] at h
    cases h
    exact Or.inl ⟨rfl, rfl⟩
  | some u =>
    rw [hd] at h
    cases u <;> cases h
    exact Or.inr ⟨_, rfl, rfl⟩

theorem setSectionKey_lookup2_self (cfg : Jdict) (S K : String) (v : JVal)
    (c : Jdict) (h : setSectionKey cfg S K v = .ok c) :
    lookup2 c S K = some v := by
  rcases setSectionKey_ok_inv cfg S K v c h with ⟨_, rfl⟩ | ⟨d, _, rfl⟩ <;>
    simp [lookup2, dictGet_dictSet_self, dictGet]

theorem setSectionKey_lookup2_other (cfg : Jdict) (s k S K : String) (v : JVal)
    (c : Jdict) (h : setSectionKey cfg s k v = .ok c) (hne : (s, k) ≠ (S, K)) :
    lookup2 c S K = lookup2 cfg S K := by
  by_cases hs : s = S
  · subst hs
    have hk : k ≠ K := fun hk => hne (by rw [hk])
    rcases setSectionKey_ok_inv cfg s k v c h with ⟨hd, rfl⟩ | ⟨d, hd, rfl⟩ <;>
      simp [lookup2, dictGet_dictSet_self, hd, dictGet, hk,
        dictGet_dictSet_ne _ k K v (Ne.symm hk)]
  · rcases setSectionKey_ok_inv cfg s k v c h with ⟨hd, rfl⟩ | ⟨d, hd, rfl⟩ <;>
      simp [lookup2, dictGet_dictSet_ne _ _ _ _ (Ne.symm hs)]

theorem envPass_notTouched (S K : String) :
    ∀ (L : List (String × String × String)) (env : String → Option String)
      (cfg cfg' : Jdict), envPass env cfg L = .ok cfg' →
      (∀ e ∈ L, e.2 ≠ (S, K)) → lookup2 cfg' S K = lookup2 cfg S K := by
  intro L
  induction L with
  | nil => intro env cfg cfg' h _; cases h; rfl
  | cons e rest ih =>
    obtain ⟨ek0, s0, k0⟩ := e
    intro env cfg cfg' h hne
    cases he : env ek0 with
    | none =>
      simp only [envPass, he] at h
      exact ih env cfg cfg' h (fun e he' => hne e (List.mem_cons_of_mem _ he'))
    | some s =>
      simp only [envPass, he] at h
      cases hs : setSectionKey cfg s0 k0 (convertEnvValue s) with
      | error e' => simp [hs] at h
      | ok c1 =>
        simp only [hs] at h
        rw [ih env c1 cfg' h (fun e he' => hne e (List.mem_cons_of_mem _ he'))]
        exact setSectionKey_lookup2_other cfg s0 k0 S K _ c1 hs
          (hne (ek0, s0, k0) (List.mem_cons_self _ _))

theorem envPass_sets (S K : String) :
    ∀ (L : List (String × String × String)) (env : String → Option String)
      (cfg cfg' : Jdict) (ek str : String),
      envPass env cfg L = .ok cfg' → (ek, S, K) ∈ L → env ek = some str →
      List.Pairwise (fun a b => a.2 ≠ b.2) L →
      lookup2 cfg' S K = some (convertEnvValue str) := by
  intro L
  induction L with
  | nil => intro env cfg cfg' ek str _ hmem; cases hmem
  | cons e rest ih =>
    obtain ⟨ek0, s0, k0⟩ := e
    intro env cfg cfg' ek str h hmem henv hpw
    rcases List.mem_cons.mp hmem with hhead | htail
    · cases hhead
      simp only [envPass, henv] at h
      cases hs : setSectionKey cfg S K (convertEnvValue str) with
      | error e' => simp [hs] at h
      | ok c1 =>
        simp only [hs] at h
        rw [envPass_notTouched S K rest env c1 cfg' h
          (fun e he' => Ne.symm ((List.pairwise_cons.mp hpw).1 e he'))]
        exact setSectionKey_lookup2_self cfg S K _ c1 hs
    · cases he : env ek0 with
      | none =>
        simp only [envPass, he] at h
        exact ih env cfg cfg' ek str h htail henv (List.pairwise_cons.mp hpw).2
      | some s =>
        simp only [envPass, he] at h
        cases hs : setSectionKey cfg s0 k0 (convertEnvValue s) with
        | error e' => simp [hs] at h
        | ok c1 =>
          simp only [hs] at h
          exact ih env c1 cfg' ek str h htail henv (List.pairwise_cons.mp hpw).2

theorem splitDotAux_no_dot (cs : List Char) : ∀ acc, '.' ∉ cs →
    splitDotAux acc cs = [String.mk (acc.reverse ++ cs)] := by
  induction cs with
  | nil => intro acc _; simp [splitDotAux]
  | cons c rest ih =>
    intro acc h
    rw [List.mem_cons] at h
    push_neg at h
    simp [splitDotAux, Ne.symm h.1, ih _ h.2]

theorem splitDotAux_mid (pre : List Char) : ∀ (acc post : List Char), '.' ∉ pre →
    splitDotAux acc (pre ++ '.' :: post) =
      String.mk (acc.reverse ++ pre) :: splitDotAux [] post := by
  induction pre with
  | nil => intro acc post _; simp [splitDotAux]
  | cons c pre' ih =>
    intro acc post h
    rw [List.mem_cons] at h
    push_neg at h
    simp [splitDotAux, Ne.symm h.1, ih _ _ h.2]

theorem pySplitDot_pair (S K : String) (hS : '.' ∉ S.data) (hK : '.' ∉ K.data) :
    pySplitDot (S ++ "." ++ K) = [S, K] := by
  unfold pySplitDot
  have hdata : (S ++ "." ++ K).data = S.data ++ '.' :: K.data := by
    rw [String.data_append, String.data_append, List.append_assoc]
    rfl
  rw [hdata, splitDotAux_mid S.data [] K.data hS, splitDotAux_no_dot K.data [] hK]
  cases S
  cases K
  rfl

theorem lookupPath_pair (cfg : Jdict) (S K : String) :
    lookupPath (.dict cfg) [S, K] = lookup2 cfg S K := by
  cases hd : dictGet cfg S with
  | none => simp [lookupPath, lookup2, hd]
  | some u =>
    cases u
    case dict d =>
      simp only [lookupPath, lookup2, hd]
      cases dictGet d K <;> rfl
    all_goals simp [lookupPath, lookup2, hd]

theorem envMappings_dotfree :
    ∀ e ∈ envMappings, '.' ∉ e.2.1.data ∧ '.' ∉ e.2.2.data := by decide

theorem envMappings_pairs_distinct :
    List.Pairwise (fun a b => a.2 ≠ b.2) envMappings := by decide

/-- C1.  Precedence: for a configuration key present in the built-in
defaults, also set in the structured config file, and also supplied through a
recognized environment variable, `get` after a `load_config()` that completed
normally observes the environment variable's coerced value — the environment
pass runs last and overwrites the entry. -/
theorem env_precedence (ek S K : String) (jdoc : Jdict)
    (env : String → Option String) (str : String)
    (hmem : (ek, S, K) ∈ envMappings)
    (henv : env ek = some str)
    (_hdef : (lookup2 defaultConfig S K).isSome = true)
    (_hfile : (lookupPath (.dict jdoc) [S, K]).isSome = true)
    (hok : (loadConfig (some jdoc) env).isOk = true) :
    (loadConfig (some jdoc) env).map
      (fun cfg => getValue cfg (S ++ "." ++ K) JVal.none) =
      .ok (convertEnvValue str) := by
  cases hl : loadConfig (some jdoc) env with
  | error e => rw [hl] at hok; simp [Except.isOk, Except.toBool] at hok
  | ok cfg =>
    have henvp : envPass env (deepMerge defaultConfig jdoc) envMappings = .ok cfg := hl
    have hl2 : lookup2 cfg S K = some (convertEnvValue str) :=
      envPass_sets S K envMappings env _ cfg ek str henvp hmem henv
        envMappings_pairs_distinct
    have hdot := envMappings_dotfree (ek, S, K) hmem
    have hget : getValue cfg (S ++ "." ++ K) JVal.none = convertEnvValue str := by
      show (match getGo (.dict cfg) (pySplitDot (S ++ "." ++ K)) with
            | .ok v => v | .error _ => JVal.none) = convertEnvValue str
      rw [getGo_getD, pySplitDot_pair S K hdot.1 hdot.2, lookupPath_pair, hl2]
      rfl
    simp [Except.map, hget]

theorem env_precedence_witness :
    (loadConfig (some [("logging", .dict [("log_level", .str "WARNING")])])
      (fun k => if k = "LOG_LEVEL" then some "debug" else Option.none)).map
      (fun cfg => getValue cfg ("logging" ++ "." ++ "log_level") JVal.none) =
      .ok (convertEnvValue "debug") :=
  env_precedence "LOG_LEVEL" "logging" "log_level"
    [("logging", .dict [("log_level", .str "WARNING")])]
    (fun k => if k = "LOG_LEVEL" then some "debug" else Option.none) "debug"
    (by decide) rfl (by rfl) (by rfl)
    (by simp [loadConfig, deepMerge, dictGet, dictSet, defaultConfig,
          Except.isOk, Except.toBool]; rfl)

theorem safeGo_cons_inv (acc : Jdict) (s0 : String) (v0 : JVal) (rest : Jdict)
    (out : Jdict) (h : safeGo acc ((s0, v0) :: rest) = .ok out) :
    safeGo (dictSet acc s0 (safeTransform s0 v0)) rest = .ok out := by
  by_cases hapi : s0 = "api"
  · subst hapi
    cases v0 with
    | dict d =>
      simp only [safeGo, if_pos rfl] at h
      simpa [safeTransform, scrubApi] using h
    | none => simp [safeGo] at h
    | bool b => simp [safeGo] at h
    | int n => simp [safeGo] at h
    | float a b => simp [safeGo] at h
    | inf => simp [safeGo] at h
    | negInf => simp [safeGo] at h
    | nan => simp [safeGo] at h
    | str s => simp [safeGo] at h
    | list xs => simp [safeGo] at h
  · cases v0 with
    | dict d =>
      simp only [safeGo, if_neg hapi, copyValue] at h
      simpa [safeTransform, hapi] using h
    | list xs =>
      simp only [safeGo, if_neg hapi, copyValue] at h
      simpa [safeTransform, hapi] using h
    | none => simp [safeGo, hapi, copyValue] at h
    | bool b => simp [safeGo, hapi, copyValue] at h
    | int n => simp [safeGo, hapi, copyValue] at h
    | float a b => simp [safeGo, hapi, copyValue] at h
    | inf => simp [safeGo, hapi, copyValue] at h
    | negInf => simp [safeGo, hapi, copyValue] at h
    | nan => simp [safeGo, hapi, copyValue] at h
    | str s => simp [safeGo, hapi, copyValue] at h

theorem safeGo_get_notMem (entries : Jdict) : ∀ (acc out : Jdict) (s : String),
    s ∉ entries.map Prod.fst → safeGo acc entries = .ok out →
    dictGet out s = dictGet acc s := by
  induction entries with
  | nil => intro acc out s _ h; cases h; rfl
  | cons kv rest ih =>
    obtain ⟨s0, v0⟩ := kv
    intro acc out s hmem h
    simp only [List.map_cons, List.mem_cons, not_or] at hmem
    rw [ih _ _ s hmem.2 (safeGo_cons_inv acc s0 v0 rest out h)]
    exact dictGet_dictSet_ne _ _ _ _ hmem.1

theorem safeGo_get (entries : Jdict) : ∀ (acc out : Jdict),
    safeGo acc entries = .ok out → (entries.map Prod.fst).Nodup → ∀ s,
    dictGet out s = (match dictGet entries s with
      | some v => some (safeTransform s v)
      | Option.none => dictGet acc s) := by
  induction entries with
  | nil => intro acc out h _ s; cases h; simp [dictGet]
  | cons kv rest ih =>
    obtain ⟨s0, v0⟩ := kv
    intro acc out h hnd s
    simp only [List.map_cons, List.nodup_cons] at hnd
    have h' := safeGo_cons_inv acc s0 v0 rest out h
    by_cases hs : s = s0
    · subst hs
      rw [safeGo_get_notMem rest _ _ s hnd.1 h']
      simp [dictGet, dictGet_dictSet_self]
    · rw [ih _ _ h' hnd.2 s]
      cases hr : dictGet rest s with
      | some v => simp [dictGet, Ne.symm hs, hr]
      | none =>
        simp [dictGet, Ne.symm hs, hr,
          dictGet_dictSet_ne _ _ _ _ hs]

theorem dictGet_filter_drop (d : Jdict) (k : String)
    (hk : k = "key" ∨ k = "secret") :
    dictGet (d.filter (fun kv => notCredKey kv.1)) k = Option.none := by
  induction d with
  | nil => simp [dictGet]
  | cons kv rest ih =>
    obtain ⟨k0, v0⟩ := kv
    by_cases hp : k0 = "key" ∨ k0 = "secret"
    · have hcond : notCredKey k0 = false := by
        rcases hp with rfl | rfl <;> rfl
      simp [List.filter_cons, hcond, ih]
    · push_neg at hp
      have hcond : notCredKey k0 = true := by simp [notCredKey, hp.1, hp.2]
      have hne : k0 ≠ k := by
        rcases hk with rfl | rfl
        exacts [hp.1, hp.2]
      simp [List.filter_cons, hcond, dictGet, hne, ih]

theorem dictGet_filter_keep (d : Jdict) (k : String)
    (h1 : k ≠ "key") (h2 : k ≠ "secret") :
    dictGet (d.filter (fun kv => notCredKey kv.1)) k = dictGet d k := by
  induction d with
  | nil => simp [dictGet]
  | cons kv rest ih =>
    obtain ⟨k0, v0⟩ := kv
    by_cases hp : k0 = "key" ∨ k0 = "secret"
    · have hcond : notCredKey k0 = false := by
        rcases hp with rfl | rfl <;> rfl
      have hne : k0 ≠ k := by
        rcases hp with rfl | rfl
        exacts [fun h => h1 h.symm, fun h => h2 h.symm]
      simp [List.filter_cons, hcond, dictGet, hne, ih]
    · push_neg at hp
      have hcond : notCredKey k0 = true := by simp [notCredKey, hp.1, hp.2]
      by_cases hk0 : k0 = k
      · subst hk0
        simp [List.filter_cons, hcond, dictGet, ih]
      · simp [List.filter_cons, hcond, dictGet, hk0, ih]

/-- C8.  The safe-config construction used by `save_config` and the config
summary: whenever it completes on a tree (with the distinct keys of a real
Python dict), its result has no `key` and no `secret` entry in the `api`
section regardless of whether they were set, every other `api` entry is
preserved, and every section other than `api` equals the corresponding
section of the original tree. -/
theorem export_safe_spec (cfg out : Jdict)
    (hnd : (cfg.map Prod.fst).Nodup)
    (h : createSafeConfig cfg = .ok out) :
    (∀ d, dictGet out "api" = some (.dict d) →
      dictGet d "key" = Option.none ∧ dictGet d "secret" = Option.none ∧
      ∀ k, k ≠ "key" → k ≠ "secret" →
        ∀ d0, dictGet cfg "api" = some (.dict d0) → dictGet d k = dictGet d0 k) ∧
    (∀ s, s ≠ "api" → dictGet out s = dictGet cfg s) := by
  have hchar := safeGo_get cfg [] out h hnd
  constructor
  · intro d hd
    rw [hchar "api"] at hd
    cases hcfg : dictGet cfg "api" with
    | none => rw [hcfg] at hd; exact Option.noConfusion hd
    | some v =>
      rw [hcfg] at hd
      have hv : safeTransform "api" v = .dict d := Option.some.inj hd
      cases v with
      | dict d0 =>
        have hd0 : d = d0.filter (fun kv => notCredKey kv.1) := by
          have : JVal.dict (d0.filter (fun kv => notCredKey kv.1)) = .dict d := by
            simpa [safeTransform, scrubApi] using hv
          exact (JVal.dict.inj this).symm
        subst hd0
        refine ⟨dictGet_filter_drop d0 "key" (Or.inl rfl),
          dictGet_filter_drop d0 "secret" (Or.inr rfl), ?_⟩
        intro k hk1 hk2 d1 hd1
        have he : d0 = d1 := JVal.dict.inj (Option.some.inj hd1)
        subst he
        exact dictGet_filter_keep d0 k hk1 hk2
      | none => simp [safeTransform, scrubApi] at hv
      | bool b => simp [safeTransform, scrubApi] at hv
      | int n => simp [safeTransform, scrubApi] at hv
      | float a b => simp [safeTransform, scrubApi] at hv
      | inf => simp [safeTransform, scrubApi] at hv
      | negInf => simp [safeTransform, scrubApi] at hv
      | nan => simp [safeTransform, scrubApi] at hv
      | str st => simp [safeTransform, scrubApi] at hv
      | list xs => simp [safeTransform, scrubApi] at hv
  · intro s hs
    rw [hchar s]
    cases hcfg : dictGet cfg s with
    | none => simp [dictGet]
    | some v => simp [safeTransform, hs]

theorem export_safe_spec_witness :
    dictGet [("timeout", JVal.int 3)] "key" = Option.none ∧
    dictGet [("api", JVal.dict [("timeout", JVal.int 3)]), ("ui", JVal.dict [])] "ui" =
      dictGet [("api", JVal.dict [("key", JVal.str "k"), ("timeout", JVal.int 3),
        ("secret", JVal.str "s")]), ("ui", JVal.dict [])] "ui" :=
  ⟨((export_safe_spec
      [("api", JVal.dict [("key", JVal.str "k"), ("timeout", JVal.int 3),
        ("secret", JVal.str "s")]), ("ui", JVal.dict [])]
      [("api", JVal.dict [("timeout", JVal.int 3)]), ("ui", JVal.dict [])]
      (by decide) rfl).1 [("timeout", JVal.int 3)] rfl).1,
   (export_safe_spec
      [("api", JVal.dict [("key", JVal.str "k"), ("timeout", JVal.int 3),
        ("secret", JVal.str "s")]), ("ui", JVal.dict [])]
      [("api", JVal.dict [("timeout", JVal.int 3)]), ("ui", JVal.dict [])]
      (by decide) rfl).2 "ui" (by decide)⟩

theorem envPass_noEnv (cfg : Jdict) (L : List (String × String × String)) :
    envPass (fun _ => Option.none) cfg L = .ok cfg := by
  induction L with
  | nil => rfl
  | cons e rest ih =>
    obtain ⟨ek0, s0, k0⟩ := e
    simp only [envPass]
    exact ih

theorem safeGo_ok_of_sections_dict (entries : Jdict) : ∀ acc : Jdict,
    (∀ kv ∈ entries, jIsDict kv.2 = true) →
    ∃ out, safeGo acc entries = .ok out := by
  induction entries with
  | nil => intro acc _; exact ⟨acc, rfl⟩
  | cons kv rest ih =>
    obtain ⟨s0, v0⟩ := kv
    intro acc hsec
    have hv0 : jIsDict v0 = true := hsec (s0, v0) (List.mem_cons_self _ _)
    cases v0 with
    | dict d =>
      by_cases hapi : s0 = "api"
      · subst hapi
        obtain ⟨out, hout⟩ :=
          ih (dictSet acc "api" (.dict (d.filter (fun kv => notCredKey kv.1))))
            (fun kv h => hsec kv (List.mem_cons_of_mem _ h))
        exact ⟨out, by simp only [safeGo, if_pos rfl]; exact hout⟩
      · obtain ⟨out, hout⟩ :=
          ih (dictSet acc s0 (.dict d))
            (fun kv h => hsec kv (List.mem_cons_of_mem _ h))
        exact ⟨out, by simp only [safeGo, if_neg hapi, copyValue]; exact hout⟩
    | none => simp [jIsDict] at hv0
    | bool b => simp [jIsDict] at hv0
    | int n => simp [jIsDict] at hv0
    | float a b => simp [jIsDict] at hv0
    | inf => simp [jIsDict] at hv0
    | negInf => simp [jIsDict] at hv0
    | nan => simp [jIsDict] at hv0
    | str st => simp [jIsDict] at hv0
    | list xs => simp [jIsDict] at hv0

theorem deepMerge_lookup_leaf (p : List String) :
    ∀ (base update : Jdict) (v : JVal),
    lookupPath (.dict update) p = some v → jIsDict v = false →
    nodupAlongB update p = true →
    lookupPath (.dict (deepMerge base update)) p = some v := by
  induction p with
  | nil =>
    intro base update v hlp hleaf _
    simp only [lookupPath] at hlp
    cases hlp
    simp [jIsDict] at hleaf
  | cons k rest ih =>
    intro base update v hlp hleaf hnd
    simp only [lookupPath] at hlp
    cases hgetu : dictGet update k with
    | none => rw [hgetu] at hlp; exact Option.noConfusion hlp
    | some u =>
      rw [hgetu] at hlp
      simp only [nodupAlongB, hgetu, Bool.and_eq_true, decide_eq_true_eq] at hnd
      have hchar := deepMerge_get update base k hnd.1
      rw [mergeSpec, hgetu] at hchar
      simp only [lookupPath]
      cases hb : dictGet base k with
      | none =>
        rw [hb] at hchar
        cases u <;> simp only at hchar <;> rw [hchar] <;> exact hlp
      | some w =>
        rw [hb] at hchar
        cases w with
        | dict bsub =>
          cases u with
          | dict usub =>
            simp only at hchar
            rw [hchar]
            exact ih bsub usub v hlp hleaf hnd.2
          | none => simp only at hchar; rw [hchar]; exact hlp
          | bool b => simp only at hchar; rw [hchar]; exact hlp
          | int n => simp only at hchar; rw [hchar]; exact hlp
          | float a b => simp only at hchar; rw [hchar]; exact hlp
          | inf => simp only at hchar; rw [hchar]; exact hlp
          | negInf => simp only at hchar; rw [hchar]; exact hlp
          | nan => simp only at hchar; rw [hchar]; exact hlp
          | str st => simp only at hchar; rw [hchar]; exact hlp
          | list xs => simp only at hchar; rw [hchar]; exact hlp
        | none => cases u <;> simp only at hchar <;> rw [hchar] <;> exact hlp
        | bool b => cases u <;> simp only at hchar <;> rw [hchar] <;> exact hlp
        | int n => cases u <;> simp only at hchar <;> rw [hchar] <;> exact hlp
        | float a b => cases u <;> simp only at hchar <;> rw [hchar] <;> exact hlp
        | inf => cases u <;> simp only at hchar <;> rw [hchar] <;> exact hlp
        | negInf => cases u <;> simp only at hchar <;> rw [hchar] <;> exact hlp
        | nan => cases u <;> simp only at hchar <;> rw [hchar] <;> exact hlp
        | str st => cases u <;> simp only at hchar <;> rw [hchar] <;> exact hlp
        | list xs => cases u <;> simp only at hchar <;> rw [hchar] <;> exact hlp

theorem safe_lookup (cfg safe : Jdict) (p : List String) (v : JVal)
    (hnd : (cfg.map Prod.fst).Nodup)
    (hok : createSafeConfig cfg = .ok safe)
    (hlp : lookupPath (.dict cfg) p = some v)
    (hleaf : jIsDict v = false)
    (hkey : p.take 2 ≠ ["api", "key"])
    (hsec : p.take 2 ≠ ["api", "secret"]) :
    lookupPath (.dict safe) p = some v := by
  have hchar := safeGo_get cfg [] safe hok hnd
  cases p with
  | nil =>
    simp only [lookupPath] at hlp
    cases hlp
    simp [jIsDict] at hleaf
  | cons s rest =>
    simp only [lookupPath] at hlp ⊢
    cases hw : dictGet cfg s with
    | none => rw [hw] at hlp; exact Option.noConfusion hlp
    | some w =>
      rw [hw] at hlp
      have hsafe_s : dictGet safe s = some (safeTransform s w) := by rw [hchar s, hw]
      rw [hsafe_s]
      by_cases hapi : s = "api"
      · subst hapi
        cases w with
        | dict d0 =>
          cases rest with
          | nil =>
            simp only [lookupPath] at hlp
            cases hlp
            simp [jIsDict] at hleaf
          | cons k rest2 =>
            have hk' : k ≠ "key" := fun hkk => hkey (by rw [hkk]; rfl)
            have hs' : k ≠ "secret" := fun hkk => hsec (by rw [hkk]; rfl)
            show lookupPath (safeTransform "api" (.dict d0)) (k :: rest2) = some v
            simp only [safeTransform, if_pos rfl, scrubApi]
            simp only [lookupPath] at hlp ⊢
            rw [dictGet_filter_keep d0 k hk' hs']
            exact hlp
        | none =>
          show lookupPath (safeTransform "api" .none) rest = some v
          simpa [safeTransform, scrubApi] using hlp
        | bool b =>
          show lookupPath (safeTransform "api" (.bool b)) rest = some v
          simpa [safeTransform, scrubApi] using hlp
        | int n =>
          show lookupPath (safeTransform "api" (.int n)) rest = some v
          simpa [safeTransform, scrubApi] using hlp
        | float a b =>
          show lookupPath (safeTransform "api" (.float a b)) rest = some v
          simpa [safeTransform, scrubApi] using hlp
        | inf =>
          show lookupPath (safeTransform "api" .inf) rest = some v
          simpa [safeTransform, scrubApi] using hlp
        | negInf =>
          show lookupPath (safeTransform "api" .negInf) rest = some v
          simpa [safeTransform, scrubApi] using hlp
        | nan =>
          show lookupPath (safeTransform "api" .nan) rest = some v
          simpa [safeTransform, scrubApi] using hlp
        | str st =>
          show lookupPath (safeTransform "api" (.str st)) rest = some v
          simpa [safeTransform, scrubApi] using hlp
        | list xs =>
          show lookupPath (safeTransform "api" (.list xs)) rest = some v
          simpa [safeTransform, scrubApi] using hlp
      · show lookupPath (safeTransform s w) rest = some v
        simp only [safeTransform, if_neg hapi]
        exact hlp

theorem dictSet_keys (d : Jdict) (k : String) (v : JVal) :
    (dictSet d k v).map Prod.fst =
      if k ∈ d.map Prod.fst then d.map Prod.fst else d.map Prod.fst ++ [k] := by
  induction d with
  | nil => simp [dictSet]
  | cons kv rest ih =>
    obtain ⟨k0, v0⟩ := kv
    by_cases h0 : k0 = k
    · subst h0
      simp [dictSet]
    · simp only [dictSet, if_neg h0, List.map_cons, ih]
      by_cases hm : k ∈ rest.map Prod.fst <;>
        simp [hm, Ne.symm h0]

theorem dictSet_keys_nodup (d : Jdict) (k : String) (v : JVal)
    (h : (d.map Prod.fst).Nodup) : ((dictSet d k v).map Prod.fst).Nodup := by
  rw [dictSet_keys]
  by_cases hm : k ∈ d.map Prod.fst
  · simpa [hm] using h
  · simp [hm, List.nodup_append, h, hm]

theorem safeGo_keys_nodup (entries : Jdict) : ∀ acc out : Jdict,
    (acc.map Prod.fst).Nodup → safeGo acc entries = .ok out →
    (out.map Prod.fst).Nodup := by
  induction entries with
  | nil => intro acc out h hgo; cases hgo; exact h
  | cons kv rest ih =>
    obtain ⟨s0, v0⟩ := kv
    intro acc out h hgo
    exact ih _ _ (dictSet_keys_nodup acc s0 _ h) (safeGo_cons_inv acc s0 v0 rest out hgo)

theorem filter_keys_nodup (d : Jdict) (h : (d.map Prod.fst).Nodup) :
    ((d.filter (fun kv => notCredKey kv.1)).map Prod.fst).Nodup :=
  List.Nodup.sublist (List.Sublist.map Prod.fst (List.filter_sublist d)) h

theorem nodupAlongB_cons (d : Jdict) (k : String) (rest : List String) :
    nodupAlongB d (k :: rest) = (decide ((d.map Prod.fst).Nodup) &&
      (match dictGet d k with
       | some (.dict sub) => nodupAlongB sub rest
       | _ => true)) := rfl

theorem safe_nodupAlong (cfg safe : Jdict) (p : List String)
    (hnd : (cfg.map Prod.fst).Nodup)
    (hok : createSafeConfig cfg = .ok safe)
    (hndA : nodupAlongB cfg p = true)
    (hkey : p.take 2 ≠ ["api", "key"])
    (hsec : p.take 2 ≠ ["api", "secret"]) :
    nodupAlongB safe p = true := by
  have hchar := safeGo_get cfg [] safe hok hnd
  have hsn : (safe.map Prod.fst).Nodup :=
    safeGo_keys_nodup cfg [] safe (by simp) hok
  cases p with
  | nil => rfl
  | cons s rest =>
    rw [nodupAlongB_cons] at hndA ⊢
    simp only [Bool.and_eq_true, decide_eq_true_eq] at hndA ⊢
    refine ⟨hsn, ?_⟩
    cases hw : dictGet cfg s with
    | none =>
      have hws : dictGet safe s = Option.none := by rw [hchar s, hw]; rfl
      rw [hws]
    | some w =>
      have hsafe_s : dictGet safe s = some (safeTransform s w) := by rw [hchar s, hw]
      rw [hsafe_s]
      have hrec := hndA.2
      rw [hw] at hrec
      by_cases hapi : s = "api"
      · subst hapi
        cases w with
        | dict d0 =>
          have hrec2 : nodupAlongB d0 rest = true := hrec
          show nodupAlongB (d0.filter (fun kv => notCredKey kv.1)) rest = true
          cases rest with
          | nil => rfl
          | cons k rest2 =>
            have hk' : k ≠ "key" := fun hkk => hkey (by rw [hkk]; rfl)
            have hs' : k ≠ "secret" := fun hkk => hsec (by rw [hkk]; rfl)
            rw [nodupAlongB_cons] at hrec2 ⊢
            simp only [Bool.and_eq_true, decide_eq_true_eq] at hrec2 ⊢
            refine ⟨filter_keys_nodup d0 hrec2.1, ?_⟩
            rw [dictGet_filter_keep d0 k hk' hs']
            exact hrec2.2
        | none => rfl
        | bool b => rfl
        | int n => rfl
        | float a b => rfl
        | inf => rfl
        | negInf => rfl
        | nan => rfl
        | str st => rfl
        | list xs => rfl
      · show (match some (safeTransform s w) with
              | some (.dict sub) => nodupAlongB sub rest
              | _ => true) = true
        rw [show safeTransform s w = w from by simp [safeTransform, hapi]]
        exact hrec

/-- C9 counterexample.  The tree `{"api": {"key": "k", "secret": "s"}}`
validates, yet after `save_config` + `load_config` from the written file the
non-credential path `api.timeout` no longer "holds the same value as before":
it was absent (`get` returns the fallback) and afterwards holds 30, merged in
from the defaults. -/
theorem round_trip_not_preserving :
    validateConfig [("api", JVal.dict [("key", JVal.str "k"),
      ("secret", JVal.str "s")])] = true ∧
    getValue [("api", JVal.dict [("key", JVal.str "k"), ("secret", JVal.str "s")])]
      "api.timeout" JVal.none = JVal.none ∧
    (roundTrip [("api", JVal.dict [("key", JVal.str "k"),
      ("secret", JVal.str "s")])]).map
      (fun out => getValue out "api.timeout" JVal.none) = .ok (JVal.int 30) := by
  refine ⟨rfl, rfl, ?_⟩
  simp [roundTrip, createSafeConfig, safeGo, loadConfig, deepMerge, dictGet,
    dictSet, defaultConfig, notCredKey, List.filter_cons]
  rfl

/-- C9 amended.  For a valid configuration tree whose top-level section
values are all dicts (with the distinct keys of real Python dicts), the
persist/load round-trip preserves every dotted path that previously held a
non-dict value and does not lie inside `api.key`/`api.secret`; paths that
were absent before (or that hold dicts) may additionally pick up entries
merged in from the defaults, and a tree with a non-dict section makes
`save_config` swallow an `AttributeError` and write nothing at all. -/
theorem round_trip_spec (cfg : Jdict) (p : List String) (v : JVal)
    (_hval : validateConfig cfg = true)
    (hsec : ∀ kv ∈ cfg, jIsDict kv.2 = true)
    (hndtop : (cfg.map Prod.fst).Nodup)
    (hndA : nodupAlongB cfg p = true)
    (hlp : lookupPath (.dict cfg) p = some v)
    (hleaf : jIsDict v = false)
    (hkey : p.take 2 ≠ ["api", "key"])
    (hsecr : p.take 2 ≠ ["api", "secret"]) :
    (roundTrip cfg).map (fun out => lookupPath (.dict out) p) = .ok (some v) := by
  obtain ⟨safe, hsafe⟩ := safeGo_ok_of_sections_dict cfg [] hsec
  have hsafe' : createSafeConfig cfg = .ok safe := hsafe
  have hrt : roundTrip cfg = .ok (deepMerge defaultConfig safe) := by
    unfold roundTrip
    rw [hsafe']
    show loadConfig (some safe) (fun _ => Option.none) = _
    unfold loadConfig
    exact envPass_noEnv _ _
  rw [hrt]
  have hsl := safe_lookup cfg safe p v hndtop hsafe' hlp hleaf hkey hsecr
  have hsa := safe_nodupAlong cfg safe p hndtop hsafe' hndA hkey hsecr
  have hfin := deepMerge_lookup_leaf p defaultConfig safe v hsl hleaf hsa
  simp [Except.map, hfin]

theorem round_trip_spec_witness :
    (roundTrip [("api", JVal.dict [("key", JVal.str "k"), ("secret", JVal.str "s"),
      ("timeout", JVal.int 9)])]).map
      (fun out => lookupPath (.dict out) ["api", "timeout"]) =
      .ok (some (JVal.int 9)) :=
  round_trip_spec
    [("api", JVal.dict [("key", JVal.str "k"), ("secret", JVal.str "s"),
      ("timeout", JVal.int 9)])]
    ["api", "timeout"] (JVal.int 9) (by rfl) (by decide) (by decide) (by rfl)
    (by rfl) (by rfl) (by decide) (by decide)
